import Mathlib

/-!
# Verification of the URL-shortener core (`app/` package)

Shallow embedding of the repository's Python source:

* `app/encoder.py` — base-62 encoder/decoder (`encode`, `decode`).
* `app/cache.py`   — Redis adapter (`cache_get`, `cache_set`, `cache_delete`).
* `app/service.py` — service layer (`create_short_url`, `resolve_short_code`,
  `get_url_stats`, `delete_short_url`, `_log_click`).
* `app/database.py` — the `urls` and `clicks` tables, modelled as lists of
  records inside an explicit state.

Modelling conventions:
* Python strings are modelled as `List Char` where character-level structure
  matters (short codes, the alphabet) and as `String` for opaque payloads
  (long URLs, user agents).
* Machine integers are `Nat` (Python ints are unbounded and the code only
  ever handles non-negative values).
* Timestamps (`datetime`) are `Nat`; `datetime.utcnow()` becomes an explicit
  `now` parameter.
* Fallible calls return `Except`: a raised exception that propagates out of a
  service function is `.error σ` carrying the state at the moment of the
  raise.  The Redis client raises on connectivity failure, which we model by
  an `up : Bool` flag on the cache state; `cache.py` has no `try`/`except`
  around `get`/`setex`/`delete`, so those raise whenever `up = false`.
* SQLAlchemy sessions: `database.py` builds sessions with `autocommit=False,
  autoflush=False`, and `get_db` closes (hence rolls back) the session at the
  end of every request without committing.  We therefore model only state
  that is durably committed: a `db.add` that is never followed by a
  `db.commit()` on its code path leaves the committed state unchanged.
-/

/-- `BASE62_ALPHABET` from `app/encoder.py`:
`string.digits + string.ascii_lowercase + string.ascii_uppercase`. -/
def BASE62_ALPHABET : List Char :=
  ("0123456789abcdefghijklmnopqrstuvwxyzABCDEFGHIJKLMNOPQRSTUVWXYZ").toList

/-- `SHORT_CODE_LENGTH = 7` from `app/encoder.py`. -/
def SHORT_CODE_LENGTH : Nat := 7

/-- The `while num > 0` loop of `encode` in `app/encoder.py`: the list of
base-62 digit characters of `num`, least-significant first (the Python code
appends `BASE62_ALPHABET[num % 62]` and then does `num //= 62`). -/
def encodeDigitsRev (num : Nat) : List Char :=
  if h : num = 0 then []
  else BASE62_ALPHABET.get! (num % 62) :: encodeDigitsRev (num / 62)
decreasing_by exact Nat.div_lt_self (Nat.pos_of_ne_zero h) (by decide)

/-- Python's `str.zfill(width)`: left-pad with the character `'0'` up to
`width`; a string already at least `width` long is returned unchanged. -/
def zfill (s : List Char) (width : Nat) : List Char :=
  List.replicate (width - s.length) '0' ++ s

/-- `encode` from `app/encoder.py`: base-62 encode `num`, reverse the
accumulated digits, and `zfill` to `SHORT_CODE_LENGTH`; `num == 0` maps to
`SHORT_CODE_LENGTH` repetitions of `BASE62_ALPHABET[0]`. -/
def encode (num : Nat) : List Char :=
  if num = 0 then List.replicate SHORT_CODE_LENGTH (BASE62_ALPHABET.get! 0)
  else zfill (encodeDigitsRev num).reverse SHORT_CODE_LENGTH

/-- Python's `BASE62_ALPHABET.index(char)`: the first index of `char` in the
alphabet, `none` when the character is outside the alphabet (where Python
raises `ValueError`). -/
def alphabet_index (char : Char) : Option Nat :=
  BASE62_ALPHABET.findIdx? (fun x => x == char)

/-- The `for char in short_code` loop of `decode` in `app/encoder.py`,
carrying the running `result`; `none` when a character is outside the
alphabet. -/
def decodeAux (result : Nat) : List Char → Option Nat
  | [] => some result
  | char :: rest =>
    match alphabet_index char with
    | none => none
    | some i => decodeAux (result * 62 + i) rest

/-- `decode` from `app/encoder.py`: fold `result = result * 62 +
BASE62_ALPHABET.index(char)` over the code, left to right. -/
def decode (short_code : List Char) : Option Nat :=
  decodeAux 0 short_code

/-! ## Data model (app/database.py) -/

/-- A committed row of the `urls` table (`class URL` in `app/database.py`).
`created_at` is omitted: no claim concerns its value. -/
structure URLRecord where
  id : Nat
  short_code : List Char
  long_url : String
  expires_at : Option Nat
  click_count : Nat
deriving DecidableEq

/-- A committed row of the `clicks` table (`class Click` in
`app/database.py`).  `clicked_at` is omitted: no claim concerns its value. -/
structure Click where
  short_code : List Char
  user_agent : Option String
  ip_address : Option String
deriving DecidableEq

/-- The committed MySQL state: the two tables plus the auto-increment
counter backing `urls.id`. -/
structure DBState where
  urls : List URLRecord
  clicks : List Click
  next_id : Nat
deriving DecidableEq

/-- The Redis state: the key/value entries plus an `up` flag modelling
connectivity.  The client raises on every call when the server is
unreachable, and `app/cache.py` wraps no call except `ping` in `try`. -/
structure CacheState where
  entries : List (List Char × String)
  up : Bool
deriving DecidableEq

/-- The combined durable-plus-volatile state the service layer acts on. -/
structure AppState where
  db : DBState
  cache : CacheState
deriving DecidableEq

/-- The `request_info` dict built by `redirect` in `app/routes.py`;
`dict.get` yields `None` for a missing key, hence the `Option`s. -/
structure RequestInfo where
  user_agent : Option String
  ip_address : Option String
deriving DecidableEq

/-! ## Cache adapter (app/cache.py) -/

/-- The Redis key `f"{CACHE_PREFIX}{short_code}"`, `CACHE_PREFIX = "url:"`. -/
def cache_key (short_code : List Char) : List Char :=
  ("url:").toList ++ short_code

/-- Pure lookup in the modelled Redis keyspace. -/
def cache_lookup (c : CacheState) (short_code : List Char) : Option String :=
  (c.entries.find? (fun p => decide (p.1 = cache_key short_code))).map (fun p => p.2)

/-- `cache_get` from `app/cache.py`: the cached value or `none`; raises
(there is no `try`) when Redis is unreachable. -/
def cache_get (c : CacheState) (short_code : List Char) : Except Unit (Option String) :=
  if c.up then .ok (cache_lookup c short_code) else .error ()

/-- `cache_set` from `app/cache.py` (`setex`, i.e. overwrite-with-TTL; the
TTL value is not modelled — cache expiry shows up only as possible absence
of an entry); raises when Redis is unreachable. -/
def cache_set (c : CacheState) (short_code : List Char) (long_url : String) :
    Except Unit CacheState :=
  if c.up then
    .ok { c with entries :=
      (cache_key short_code, long_url) ::
        c.entries.filter (fun p => !decide (p.1 = cache_key short_code)) }
  else .error ()

/-- `cache_delete` from `app/cache.py`; raises when Redis is unreachable. -/
def cache_delete (c : CacheState) (short_code : List Char) : Except Unit CacheState :=
  if c.up then
    .ok { c with entries := c.entries.filter (fun p => !decide (p.1 = cache_key short_code)) }
  else .error ()

/-! ## Service layer (app/service.py)

Each service function maps a request plus the current committed state to a
result plus the committed state after the request finishes.  An uncaught
exception is `.error σ` with `σ` the committed state at the raise (the
request-scoped session from `get_db` is closed, rolling back anything staged
but not committed). -/

/-- `_log_click` from `app/service.py`: the `Click` row that `db.add`
stages; whether it becomes durable depends on the caller committing. -/
def log_click (short_code : List Char) (request_info : RequestInfo) : Click :=
  { short_code := short_code
    user_agent := request_info.user_agent
    ip_address := request_info.ip_address }

/-- `create_short_url` from `app/service.py`.  Step 0: dedup on an exact
`long_url` match (warm the cache, return the existing row unchanged).
Otherwise: insert with the placeholder code `"PENDING"`, flush to obtain the
auto-increment id, encode it, patch the row, `db.commit()`; then warm the
cache (a raise there fails the request, but the committed row remains). -/
def create_short_url (long_url : String) (expires_at : Option Nat) (s : AppState) :
    Except AppState (URLRecord × AppState) :=
  match s.db.urls.find? (fun r => decide (r.long_url = long_url)) with
  | some existing =>
    match cache_set s.cache existing.short_code existing.long_url with
    | .error _ => .error s
    | .ok cache1 => .ok (existing, { s with cache := cache1 })
  | none =>
    let url_record : URLRecord :=
      { id := s.db.next_id
        short_code := ("PENDING").toList
        long_url := long_url
        expires_at := expires_at
        click_count := 0 }
    let short_code := encode url_record.id
    let url_record := { url_record with short_code := short_code }
    let db1 : DBState :=
      { s.db with urls := s.db.urls ++ [url_record], next_id := s.db.next_id + 1 }
    match cache_set s.cache short_code long_url with
    | .error _ => .error { db := db1, cache := s.cache }
    | .ok cache1 => .ok (url_record, { db := db1, cache := cache1 })

/-- The store-lookup half of `resolve_short_code` (`app/service.py` lines
72–98), reached when the cache read returned a falsy value: look up by code,
expired-or-missing is `None` (404); otherwise backfill the cache, stage the
click row and the counter increment, and `db.commit()` both. -/
def resolve_store_path (short_code : List Char) (now : Nat)
    (request_info : RequestInfo) (s : AppState) :
    Except AppState (Option String × AppState) :=
  match s.db.urls.find? (fun r => decide (r.short_code = short_code)) with
  | none => .ok (none, s)
  | some url_record =>
    if (match url_record.expires_at with
        | some t => decide (t < now)
        | none => false) then
      .ok (none, s)
    else
      match cache_set s.cache short_code url_record.long_url with
      | .error _ => .error s
      | .ok cache1 =>
        let db1 : DBState :=
          { s.db with
            clicks := s.db.clicks ++ [log_click short_code request_info]
            urls := s.db.urls.map (fun r =>
              if r.short_code = short_code
              then { r with click_count := r.click_count + 1 } else r) }
        .ok (some url_record.long_url, { db := db1, cache := cache1 })

/-- `resolve_short_code` from `app/service.py`.  Fast path: `cache_get`,
and `if long_url:` — by Python truthiness both `None` and the empty string
fail the test and fall through to the store.  On a hit the code stages a
click via `_log_click` but neither this path nor its caller
(`redirect` in `app/routes.py`) ever commits, and `get_db` in
`app/database.py` closes the session when the request ends, rolling the
staged insert back — so the committed state is returned unchanged. -/
def resolve_short_code (short_code : List Char) (now : Nat)
    (request_info : RequestInfo) (s : AppState) :
    Except AppState (Option String × AppState) :=
  match cache_get s.cache short_code with
  | .error _ => .error s
  | .ok long_url? =>
    match long_url? with
    | some long_url =>
      if long_url = "" then resolve_store_path short_code now request_info s
      else .ok (some long_url, s)
    | none => resolve_store_path short_code now request_info s

/-- `get_url_stats` from `app/service.py`: the first record matching the
code, with no expiration check of any kind. -/
def get_url_stats (short_code : List Char) (s : AppState) : Option URLRecord :=
  s.db.urls.find? (fun r => decide (r.short_code = short_code))

/-- `delete_short_url` from `app/service.py`: look up by code; if absent
return `False` touching nothing; otherwise delete the row, `db.commit()`,
then delete the cache key (a raise there fails the request after the row is
already gone) and return `True`. -/
def delete_short_url (short_code : List Char) (s : AppState) :
    Except AppState (Bool × AppState) :=
  match s.db.urls.find? (fun r => decide (r.short_code = short_code)) with
  | none => .ok (false, s)
  | some url_record =>
    let db1 : DBState := { s.db with urls := s.db.urls.erase url_record }
    match cache_delete s.cache short_code with
    | .error _ => .error { db := db1, cache := s.cache }
    | .ok cache1 => .ok (true, { db := db1, cache := cache1 })


/-! ## The URL-table invariant (spec §3) -/

/-- The data-model invariant of spec §3 for the `urls` table: every committed
row's short code is `encode` of its id, ids stay below the auto-increment
counter, and ids are pairwise distinct (never reused). -/
def UrlsInv (s : AppState) : Prop :=
  (∀ r ∈ s.db.urls, r.short_code = encode r.id ∧ r.id < s.db.next_id) ∧
  s.db.urls.Pairwise (fun a b => a.id ≠ b.id)

/-! ## Concrete states for witnesses and counterexamples -/

/-- A live (never-expiring) record, as created for id 1. -/
def rec1 : URLRecord :=
  { id := 1, short_code := ("0000001").toList,
    long_url := "https://example.com/a", expires_at := none, click_count := 0 }

/-- A record whose expiration timestamp is 5. -/
def recExp : URLRecord :=
  { id := 1, short_code := ("0000001").toList,
    long_url := "https://example.com/a", expires_at := some 5, click_count := 2 }

/-- A one-record database with one logged click. -/
def dbWith (r : URLRecord) : DBState :=
  { urls := [r], clicks := [⟨("0000001").toList, none, none⟩], next_id := 2 }

/-- One record in the store, empty reachable cache. -/
def sUp (r : URLRecord) : AppState :=
  { db := dbWith r, cache := { entries := [], up := true } }

/-- `rec1` in the store, Redis unreachable. -/
def sDown : AppState :=
  { db := dbWith rec1, cache := { entries := [], up := false } }

/-- `rec1` in the store and its code cached, Redis reachable. -/
def sHit : AppState :=
  { db := dbWith rec1,
    cache := { entries := [(cache_key (("0000001").toList), "https://example.com/a")],
               up := true } }

/-- `recExp` (expires at 5) in the store, empty reachable cache. -/
def sExp : AppState :=
  { db := dbWith recExp, cache := { entries := [], up := true } }

/-- The empty initial state (fresh tables, reachable cache). -/
def s0 : AppState :=
  { db := { urls := [], clicks := [], next_id := 1 },
    cache := { entries := [], up := true } }

example : encode 1 = ("0000001").toList := by
  simp [encode, encodeDigitsRev, zfill, SHORT_CODE_LENGTH, BASE62_ALPHABET]

example : decode (("0000001").toList) = some 1 := by decide

/-! ## Encoder lemmas -/

theorem alphabet_index_get : ∀ d < 62, alphabet_index (BASE62_ALPHABET.get! d) = some d := by
  decide

theorem decodeAux_append (acc : Nat) (xs ys : List Char) :
    decodeAux acc (xs ++ ys) =
      match decodeAux acc xs with
      | none => none
      | some r => decodeAux r ys := by
  induction xs generalizing acc with
  | nil => simp [decodeAux]
  | cons c rest ih =>
    simp only [List.cons_append, decodeAux]
    cases alphabet_index c with
    | none => rfl
    | some i => exact ih _

theorem decodeAux_encodeDigitsRev (n : Nat) :
    ∀ acc, decodeAux acc (encodeDigitsRev n).reverse =
      some (acc * 62 ^ (encodeDigitsRev n).length + n) := by
  induction n using Nat.strong_induction_on with
  | _ n ih =>
    intro acc
    by_cases h : n = 0
    · subst h
      simp [encodeDigitsRev, decodeAux]
    · rw [encodeDigitsRev]
      simp only [dif_neg h, List.reverse_cons, List.length_cons]
      rw [decodeAux_append]
      rw [ih (n / 62) (Nat.div_lt_self (Nat.pos_of_ne_zero h) (by decide)) acc]
      simp only [decodeAux]
      rw [alphabet_index_get (n % 62) (Nat.mod_lt n (by decide))]
      have hmod : 62 * (n / 62) + n % 62 = n := Nat.div_add_mod n 62
      have heq : (acc * 62 ^ (encodeDigitsRev (n / 62)).length + n / 62) * 62 + n % 62
          = acc * 62 ^ ((encodeDigitsRev (n / 62)).length + 1) + (62 * (n / 62) + n % 62) := by
        ring
      show some ((acc * 62 ^ (encodeDigitsRev (n / 62)).length + n / 62) * 62 + n % 62)
          = some (acc * 62 ^ ((encodeDigitsRev (n / 62)).length + 1) + n)
      rw [heq, hmod]

theorem decodeAux_replicate_zero (k : Nat) :
    ∀ acc, decodeAux acc (List.replicate k '0') = some (acc * 62 ^ k) := by
  induction k with
  | zero => simp [decodeAux]
  | succ k ih =>
    intro acc
    rw [List.replicate_succ]
    simp only [decodeAux]
    have h0 : alphabet_index '0' = some 0 := by decide
    rw [h0]
    show decodeAux (acc * 62 + 0) (List.replicate k '0') = some (acc * 62 ^ (k + 1))
    rw [ih]
    congr 1
    ring

/-- `decode (encode num) = num` holds for every `num : Nat`, with no range
restriction: the left zero-padding contributes nothing to the accumulated
value, and for `num ≥ 62^7` `zfill` leaves the (longer) digit string
untouched. -/
theorem decode_encode (num : Nat) : decode (encode num) = some num := by
  by_cases h : num = 0
  · subst h; decide
  · rw [encode, if_neg h]
    unfold zfill decode
    rw [decodeAux_append]
    rw [decodeAux_replicate_zero _ 0]
    simp only [Nat.zero_mul]
    rw [decodeAux_encodeDigitsRev num 0]
    simp

/-- `encode` is injective on all of `Nat` (a corollary of `decode_encode`). -/
theorem encode_injective {x y : Nat} (h : encode x = encode y) : x = y := by
  have hx := decode_encode x
  rw [h, decode_encode y] at hx
  exact (Option.some.inj hx).symm

theorem encodeDigitsRev_length_le : ∀ k n, n < 62 ^ k → (encodeDigitsRev n).length ≤ k := by
  intro k
  induction k with
  | zero =>
    intro n hn
    have : n = 0 := by omega
    subst this
    simp [encodeDigitsRev]
  | succ k ih =>
    intro n hn
    by_cases h : n = 0
    · subst h; simp [encodeDigitsRev]
    · rw [encodeDigitsRev]
      simp only [dif_neg h, List.length_cons]
      have hdiv : n / 62 < 62 ^ k := by
        rw [Nat.div_lt_iff_lt_mul (by norm_num)]
        calc n < 62 ^ (k + 1) := hn
          _ = 62 ^ k * 62 := by ring
      have := ih (n / 62) hdiv
      omega

theorem encodeDigitsRev_length_ge : ∀ k n, 62 ^ k ≤ n → k + 1 ≤ (encodeDigitsRev n).length := by
  intro k
  induction k with
  | zero =>
    intro n hn
    rw [pow_zero] at hn
    have h : n ≠ 0 := by omega
    rw [encodeDigitsRev]
    simp [dif_neg h]
  | succ k ih =>
    intro n hn
    have hp : 0 < 62 ^ (k + 1) := Nat.pos_pow_of_pos _ (by norm_num)
    have h : n ≠ 0 := by omega
    rw [encodeDigitsRev]
    simp only [dif_neg h, List.length_cons]
    have hdiv : 62 ^ k ≤ n / 62 := by
      rw [Nat.le_div_iff_mul_le (by norm_num)]
      calc 62 ^ k * 62 = 62 ^ (k + 1) := by ring
        _ ≤ n := hn
    have := ih (n / 62) hdiv
    omega

/-! ## Claims about the encoder (C1, C3) -/

/-- Claim C1: for every non-negative integer `x` in the supported range
(`0 ≤ x < 62^7`), decoding the encoding of `x` returns `x`:
`decode (encode x) = x`. -/
theorem claim_C1_roundtrip (x : Nat) (_hx : x < 62 ^ SHORT_CODE_LENGTH) :
    decode (encode x) = some x :=
  decode_encode x

theorem claim_C1_roundtrip_witness :
    42 < 62 ^ SHORT_CODE_LENGTH ∧ decode (encode 42) = some 42 :=
  ⟨by norm_num [SHORT_CODE_LENGTH], claim_C1_roundtrip 42 (by norm_num [SHORT_CODE_LENGTH])⟩

/-- Claim C3 is false as stated ("for every non-negative integer x"):
at `x = 62^7 = 3521614606208` the pad-then-reverse logic does not truncate
and `encode` returns an 8-character code. -/
theorem claim_C3_counterexample :
    (encode 3521614606208).length = 8 ∧ (encode 3521614606208).length ≠ 7 := by
  have h62 : (3521614606208 : Nat) = 62 ^ 7 := by norm_num
  have hne : (3521614606208 : Nat) ≠ 0 := by norm_num
  have hle : (encodeDigitsRev 3521614606208).length ≤ 8 := by
    apply encodeDigitsRev_length_le
    rw [h62]
    norm_num
  have hge : 8 ≤ (encodeDigitsRev 3521614606208).length := by
    have := encodeDigitsRev_length_ge 7 3521614606208 (le_of_eq h62.symm)
    omega
  have hlen : (encodeDigitsRev 3521614606208).length = 8 := le_antisymm hle hge
  have hlen8 : (encode 3521614606208).length = 8 := by
    rw [encode, if_neg hne]
    unfold zfill
    rw [List.length_append, List.length_replicate, List.length_reverse, hlen]
    rfl
  exact ⟨hlen8, by rw [hlen8]; norm_num⟩

/-- Claim C3 (amended): for every `x` in the supported range `x < 62^7`,
`encode x` is a string of exactly `SHORT_CODE_LENGTH = 7` characters, and
`x = 0` maps to seven repetitions of the zero symbol `'0'`; outside the
range the code grows beyond 7 characters (see the counterexample). -/
theorem claim_C3_amended (x : Nat) (hx : x < 62 ^ SHORT_CODE_LENGTH) :
    (encode x).length = SHORT_CODE_LENGTH ∧
      encode 0 = List.replicate SHORT_CODE_LENGTH '0' := by
  constructor
  · by_cases h : x = 0
    · subst h
      simp [encode, List.length_replicate]
    · rw [encode, if_neg h]
      unfold zfill
      have h1 : 1 ≤ (encodeDigitsRev x).length := by
        have := encodeDigitsRev_length_ge 0 x (by rw [pow_zero]; omega)
        omega
      have h7 : (encodeDigitsRev x).length ≤ SHORT_CODE_LENGTH :=
        encodeDigitsRev_length_le SHORT_CODE_LENGTH x hx
      simp only [List.length_append, List.length_replicate, List.length_reverse]
      omega
  · decide

theorem claim_C3_amended_witness :
    42 < 62 ^ SHORT_CODE_LENGTH ∧ (encode 42).length = SHORT_CODE_LENGTH :=
  ⟨by norm_num [SHORT_CODE_LENGTH], (claim_C3_amended 42 (by norm_num [SHORT_CODE_LENGTH])).1⟩

/-! ## Helper lemmas about the adapters and the service layer -/

theorem cache_get_up (c : CacheState) (code : List Char) (h : c.up = true) :
    cache_get c code = .ok (cache_lookup c code) := by
  simp [cache_get, h]

theorem cache_set_ok (c : CacheState) (code : List Char) (u : String) (hup : c.up = true) :
    cache_set c code u = .ok
      { entries := (cache_key code, u) ::
          c.entries.filter (fun p => !decide (p.1 = cache_key code)),
        up := c.up } := by
  simp [cache_set, hup]

theorem cache_lookup_cons_self (l : List (List Char × String)) (b : Bool)
    (code : List Char) (u : String) :
    cache_lookup { entries := (cache_key code, u) :: l, up := b } code = some u := by
  simp [cache_lookup, List.find?_cons]

theorem cache_lookup_filter_not (l : List (List Char × String)) (b : Bool)
    (code : List Char) :
    cache_lookup
      { entries := l.filter (fun p => !decide (p.1 = cache_key code)), up := b }
      code = none := by
  unfold cache_lookup
  rw [List.find?_eq_none.mpr]
  · rfl
  · intro x hx
    have h := (List.mem_filter.mp hx).2
    simp only [Bool.not_eq_true', decide_eq_false_iff_not] at h
    simp [h]

theorem resolve_miss (s : AppState) (code : List Char) (now : Nat) (info : RequestInfo)
    (hup : s.cache.up = true) (hmiss : cache_lookup s.cache code = none) :
    resolve_short_code code now info s = resolve_store_path code now info s := by
  unfold resolve_short_code
  rw [cache_get_up _ _ hup, hmiss]

theorem resolve_hit (s : AppState) (code : List Char) (now : Nat) (info : RequestInfo)
    (u : String) (hup : s.cache.up = true)
    (hhit : cache_lookup s.cache code = some u) (hne : u ≠ "") :
    resolve_short_code code now info s = .ok (some u, s) := by
  unfold resolve_short_code
  rw [cache_get_up _ _ hup, hhit]
  dsimp only
  rw [if_neg hne]

theorem resolve_expired (s : AppState) (code : List Char) (now : Nat) (info : RequestInfo)
    (r : URLRecord) (t : Nat)
    (hup : s.cache.up = true) (hmiss : cache_lookup s.cache code = none)
    (hfind : s.db.urls.find? (fun x => decide (x.short_code = code)) = some r)
    (hexp : r.expires_at = some t) (ht : t < now) :
    resolve_short_code code now info s = .ok (none, s) := by
  rw [resolve_miss s code now info hup hmiss]
  unfold resolve_store_path
  rw [hfind]
  dsimp only
  rw [hexp]
  simp [ht]

theorem resolve_absent (s : AppState) (code : List Char) (now : Nat) (info : RequestInfo)
    (hup : s.cache.up = true) (hmiss : cache_lookup s.cache code = none)
    (hfind : s.db.urls.find? (fun x => decide (x.short_code = code)) = none) :
    resolve_short_code code now info s = .ok (none, s) := by
  rw [resolve_miss s code now info hup hmiss]
  unfold resolve_store_path
  rw [hfind]

theorem resolve_serve (s : AppState) (code : List Char) (now : Nat) (info : RequestInfo)
    (r : URLRecord)
    (hup : s.cache.up = true) (hmiss : cache_lookup s.cache code = none)
    (hfind : s.db.urls.find? (fun x => decide (x.short_code = code)) = some r)
    (hexp : ∀ t, r.expires_at = some t → ¬ t < now) :
    resolve_short_code code now info s = .ok (some r.long_url,
      { db := { urls := s.db.urls.map (fun x =>
                  if x.short_code = code
                  then { x with click_count := x.click_count + 1 } else x),
                clicks := s.db.clicks ++ [log_click code info],
                next_id := s.db.next_id },
        cache := { entries := (cache_key code, r.long_url) ::
                     s.cache.entries.filter (fun p => !decide (p.1 = cache_key code)),
                   up := s.cache.up } }) := by
  rw [resolve_miss s code now info hup hmiss]
  unfold resolve_store_path
  rw [hfind]
  dsimp only
  have hb : (match r.expires_at with
      | some t => decide (t < now)
      | none => false) = false := by
    cases he : r.expires_at with
    | none => rfl
    | some t => simpa using hexp t he
  rw [hb]
  simp only [Bool.false_eq_true, if_false]
  rw [cache_set_ok s.cache code r.long_url hup]

/-! ## Invariant lemmas and preservation -/

theorem bump_id (code : List Char) (x : URLRecord) :
    (if x.short_code = code
     then { x with click_count := x.click_count + 1 } else x).id = x.id := by
  by_cases h : x.short_code = code <;> simp [h]

theorem bump_short_code (code : List Char) (x : URLRecord) :
    (if x.short_code = code
     then { x with click_count := x.click_count + 1 } else x).short_code = x.short_code := by
  by_cases h : x.short_code = code <;> simp [h]

theorem UrlsInv_resolve_store_path (s : AppState) (code : List Char) (now : Nat)
    (info : RequestInfo) (res : Option String) (s' : AppState)
    (hcode : ∀ r ∈ s.db.urls, r.short_code = encode r.id ∧ r.id < s.db.next_id)
    (hids : s.db.urls.Pairwise (fun a b => a.id ≠ b.id))
    (hok : resolve_store_path code now info s = .ok (res, s')) : UrlsInv s' := by
  unfold resolve_store_path at hok
  cases hf : s.db.urls.find? (fun x => decide (x.short_code = code)) with
  | none =>
    rw [hf] at hok
    have h1 := Except.ok.inj hok
    injection h1 with _ hs
    subst hs
    exact ⟨hcode, hids⟩
  | some r0 =>
    rw [hf] at hok
    dsimp only at hok
    by_cases hb : (match r0.expires_at with
        | some t => decide (t < now)
        | none => false) = true
    · rw [if_pos hb] at hok
      have h1 := Except.ok.inj hok
      injection h1 with _ hs
      subst hs
      exact ⟨hcode, hids⟩
    · rw [if_neg hb] at hok
      cases hcs : cache_set s.cache code r0.long_url with
      | error e => rw [hcs] at hok; cases hok
      | ok c1 =>
        rw [hcs] at hok
        dsimp only at hok
        have h1 := Except.ok.inj hok
        injection h1 with _ hs
        subst hs
        constructor
        · intro r hr
          rw [List.mem_map] at hr
          obtain ⟨x, hx, hxr⟩ := hr
          subst hxr
          rw [bump_short_code, bump_id]
          exact hcode x hx
        · rw [List.pairwise_map]
          refine List.Pairwise.imp ?_ hids
          intro a b hne
          rw [bump_id, bump_id]
          exact hne

theorem resolve_store_path_error (s : AppState) (code : List Char) (now : Nat)
    (info : RequestInfo) (serr : AppState)
    (hok : resolve_store_path code now info s = .error serr) : serr = s := by
  unfold resolve_store_path at hok
  cases hf : s.db.urls.find? (fun x => decide (x.short_code = code)) with
  | none => rw [hf] at hok; cases hok
  | some r0 =>
    rw [hf] at hok
    dsimp only at hok
    by_cases hb : (match r0.expires_at with
        | some t => decide (t < now)
        | none => false) = true
    · rw [if_pos hb] at hok
      cases hok
    · rw [if_neg hb] at hok
      cases hcs : cache_set s.cache code r0.long_url with
      | error e => rw [hcs] at hok; exact (Except.error.inj hok).symm
      | ok c1 =>
        rw [hcs] at hok
        dsimp only at hok
        cases hok

/-- Claim C2: under the URL-table invariant, every committed record's short
code is `encode` of its store-assigned id (a completed create never leaves
the placeholder committed), no two records share a short code (ids are
unique and `encode` is injective), and the invariant is preserved by every
create, resolve, and delete — both on success and when the request fails on
an uncaught cache exception (in which case whatever state was committed
before the raise still satisfies it). -/
theorem claim_C2_unique_codes (s : AppState) (h : UrlsInv s) :
    s.db.urls.Pairwise (fun a b => a.short_code ≠ b.short_code) ∧
    (∀ lu ea r s', create_short_url lu ea s = .ok (r, s') →
       r.short_code = encode r.id ∧ UrlsInv s') ∧
    (∀ lu ea serr, create_short_url lu ea s = .error serr → UrlsInv serr) ∧
    (∀ code now info res s', resolve_short_code code now info s = .ok (res, s') →
       UrlsInv s') ∧
    (∀ code now info serr, resolve_short_code code now info s = .error serr →
       UrlsInv serr) ∧
    (∀ code b s', delete_short_url code s = .ok (b, s') → UrlsInv s') ∧
    (∀ code serr, delete_short_url code s = .error serr → UrlsInv serr) := by
  obtain ⟨hcode, hids⟩ := h
  have hpair : s.db.urls.Pairwise (fun a b => a.short_code ≠ b.short_code) := by
    refine List.Pairwise.imp_of_mem ?_ hids
    intro a b ha hb hne hceq
    apply hne
    have ha' := (hcode a ha).1
    have hb' := (hcode b hb).1
    rw [ha', hb'] at hceq
    exact encode_injective hceq
  have hdb1 : ∀ (lu : String) (ea : Option Nat) (c : CacheState), UrlsInv
      { db := { urls := s.db.urls ++
                  [{ id := s.db.next_id, short_code := encode s.db.next_id,
                     long_url := lu, expires_at := ea, click_count := 0 }],
                clicks := s.db.clicks, next_id := s.db.next_id + 1 },
        cache := c } := by
    intro lu ea c
    constructor
    · intro x hx
      rw [List.mem_append] at hx
      cases hx with
      | inl hx => exact ⟨(hcode x hx).1, Nat.lt_succ_of_lt (hcode x hx).2⟩
      | inr hx =>
        rw [List.mem_singleton] at hx
        subst hx
        exact ⟨rfl, Nat.lt_succ_self _⟩
    · rw [List.pairwise_append]
      refine ⟨hids, List.pairwise_singleton _ _, ?_⟩
      intro a ha b hb
      rw [List.mem_singleton] at hb
      subst hb
      show a.id ≠ s.db.next_id
      have := (hcode a ha).2
      omega
  have hdbe : ∀ (r0 : URLRecord) (c : CacheState), UrlsInv
      { db := { urls := s.db.urls.erase r0, clicks := s.db.clicks,
                next_id := s.db.next_id },
        cache := c } := by
    intro r0 c
    exact ⟨fun x hx => hcode x (List.mem_of_mem_erase hx),
      List.Pairwise.sublist (List.erase_sublist _ _) hids⟩
  refine ⟨hpair, ?_, ?_, ?_, ?_, ?_, ?_⟩
  · intro lu ea r s' hok
    unfold create_short_url at hok
    cases hf : s.db.urls.find? (fun x => decide (x.long_url = lu)) with
    | some ex =>
      rw [hf] at hok
      dsimp only at hok
      cases hcs : cache_set s.cache ex.short_code ex.long_url with
      | error e => rw [hcs] at hok; cases hok
      | ok c1 =>
        rw [hcs] at hok
        have h1 := Except.ok.inj hok
        injection h1 with hr hs
        subst hr
        subst hs
        have hex := hcode ex (List.mem_of_find?_eq_some hf)
        exact ⟨hex.1, hcode, hids⟩
    | none =>
      rw [hf] at hok
      dsimp only at hok
      cases hcs : cache_set s.cache (encode s.db.next_id) lu with
      | error e => rw [hcs] at hok; cases hok
      | ok c1 =>
        rw [hcs] at hok
        have h1 := Except.ok.inj hok
        injection h1 with hr hs
        subst hr
        subst hs
        exact ⟨rfl, hdb1 lu ea c1⟩
  · intro lu ea serr hok
    unfold create_short_url at hok
    cases hf : s.db.urls.find? (fun x => decide (x.long_url = lu)) with
    | some ex =>
      rw [hf] at hok
      dsimp only at hok
      cases hcs : cache_set s.cache ex.short_code ex.long_url with
      | error e =>
        rw [hcs] at hok
        rw [← Except.error.inj hok]
        exact ⟨hcode, hids⟩
      | ok c1 => rw [hcs] at hok; cases hok
    | none =>
      rw [hf] at hok
      dsimp only at hok
      cases hcs : cache_set s.cache (encode s.db.next_id) lu with
      | error e =>
        rw [hcs] at hok
        rw [← Except.error.inj hok]
        exact hdb1 lu ea s.cache
      | ok c1 => rw [hcs] at hok; cases hok
  · intro code now info res s' hok
    unfold resolve_short_code at hok
    cases hq : cache_get s.cache code with
    | error e => rw [hq] at hok; cases hok
    | ok lu? =>
      rw [hq] at hok
      dsimp only at hok
      cases lu? with
      | some lu =>
        dsimp only at hok
        by_cases he : lu = ""
        · rw [if_pos he] at hok
          exact UrlsInv_resolve_store_path s code now info res s' hcode hids hok
        · rw [if_neg he] at hok
          have h1 := Except.ok.inj hok
          injection h1 with _ hs
          subst hs
          exact ⟨hcode, hids⟩
      | none =>
        exact UrlsInv_resolve_store_path s code now info res s' hcode hids hok
  · intro code now info serr hok
    unfold resolve_short_code at hok
    cases hq : cache_get s.cache code with
    | error e =>
      rw [hq] at hok
      rw [← Except.error.inj hok]
      exact ⟨hcode, hids⟩
    | ok lu? =>
      rw [hq] at hok
      dsimp only at hok
      cases lu? with
      | some lu =>
        dsimp only at hok
        by_cases he : lu = ""
        · rw [if_pos he] at hok
          rw [resolve_store_path_error s code now info serr hok]
          exact ⟨hcode, hids⟩
        · rw [if_neg he] at hok
          cases hok
      | none =>
        rw [resolve_store_path_error s code now info serr hok]
        exact ⟨hcode, hids⟩
  · intro code b s' hok
    unfold delete_short_url at hok
    cases hf : s.db.urls.find? (fun x => decide (x.short_code = code)) with
    | none =>
      rw [hf] at hok
      have h1 := Except.ok.inj hok
      injection h1 with _ hs
      subst hs
      exact ⟨hcode, hids⟩
    | some r0 =>
      rw [hf] at hok
      dsimp only at hok
      cases hcd : cache_delete s.cache code with
      | error e => rw [hcd] at hok; cases hok
      | ok c1 =>
        rw [hcd] at hok
        have h1 := Except.ok.inj hok
        injection h1 with _ hs
        subst hs
        exact hdbe r0 c1
  · intro code serr hok
    unfold delete_short_url at hok
    cases hf : s.db.urls.find? (fun x => decide (x.short_code = code)) with
    | none => rw [hf] at hok; cases hok
    | some r0 =>
      rw [hf] at hok
      dsimp only at hok
      cases hcd : cache_delete s.cache code with
      | error e =>
        rw [hcd] at hok
        rw [← Except.error.inj hok]
        exact hdbe r0 s.cache
      | ok c1 => rw [hcd] at hok; cases hok

theorem claim_C2_unique_codes_witness :
    UrlsInv s0 ∧ s0.db.urls.Pairwise (fun a b => a.short_code ≠ b.short_code) :=
  have hinv : UrlsInv s0 := ⟨(by intro r hr; cases hr), List.Pairwise.nil⟩
  ⟨hinv, (claim_C2_unique_codes s0 hinv).1⟩

/-! ## Claims about the service layer (C4–C10) -/

/-- Claim C4 is false as stated: with Redis unreachable (`up = false`) and
the record present in the store, the cache-read failure during resolution is
surfaced as an error — the exception from `redis_client.get` propagates out
of `resolve_short_code`, which has no handler — instead of being treated as
a cache miss with store fallback. -/
theorem claim_C4_counterexample :
    sDown.cache.up = false ∧
    get_url_stats (("0000001").toList) sDown = some rec1 ∧
    resolve_short_code (("0000001").toList) 100 ⟨none, none⟩ sDown = .error sDown := by
  refine ⟨rfl, by decide, rfl⟩

/-- Claim C4 (amended): a cache connectivity failure IS fatal to the
operation: with the cache down, every resolve surfaces an error (no store
fallback ever happens), and no create or delete-of-an-existing-code can
complete, because each unconditionally performs a cache write/delete whose
exception propagates.  Only a genuine miss (reachable cache, absent key)
falls back to the store. -/
theorem claim_C4_amended (s : AppState) (hdown : s.cache.up = false) :
    (∀ code now info, resolve_short_code code now info s = .error s) ∧
    (∀ lu ea r s', create_short_url lu ea s ≠ .ok (r, s')) ∧
    (∀ code s', delete_short_url code s ≠ .ok (true, s')) := by
  have hget : ∀ code, cache_get s.cache code = .error () := by
    intro code
    simp [cache_get, hdown]
  have hset : ∀ code u, cache_set s.cache code u = .error () := by
    intro code u
    simp [cache_set, hdown]
  have hdel : ∀ code, cache_delete s.cache code = .error () := by
    intro code
    simp [cache_delete, hdown]
  refine ⟨?_, ?_, ?_⟩
  · intro code now info
    unfold resolve_short_code
    rw [hget]
  · intro lu ea r s' hok
    unfold create_short_url at hok
    cases hf : s.db.urls.find? (fun x => decide (x.long_url = lu)) with
    | some ex =>
      rw [hf] at hok
      dsimp only at hok
      rw [hset] at hok
      cases hok
    | none =>
      rw [hf] at hok
      dsimp only at hok
      rw [hset] at hok
      cases hok
  · intro code s' hok
    unfold delete_short_url at hok
    cases hf : s.db.urls.find? (fun x => decide (x.short_code = code)) with
    | some ex =>
      rw [hf] at hok
      dsimp only at hok
      rw [hdel] at hok
      cases hok
    | none =>
      rw [hf] at hok
      have h1 := Except.ok.inj hok
      injection h1 with hb _
      cases hb

theorem claim_C4_amended_witness :
    sDown.cache.up = false ∧
    resolve_short_code (("0000002").toList) 7 ⟨none, none⟩ sDown = .error sDown :=
  ⟨rfl, (claim_C4_amended sDown rfl).1 (("0000002").toList) 7 ⟨none, none⟩⟩

/-- Claim C5: for a short code missing from the (reachable) cache whose
record's `expires_at` is strictly in the past, resolve returns not-found and
leaves the entire state unchanged — no cache backfill, no click event, no
counter increment, and the record with its click history stays in the
store (the result state is exactly `s`). -/
theorem claim_C5_expired_resolve (s : AppState) (code : List Char) (now : Nat)
    (info : RequestInfo) (r : URLRecord) (t : Nat)
    (hup : s.cache.up = true) (hmiss : cache_lookup s.cache code = none)
    (hfind : s.db.urls.find? (fun x => decide (x.short_code = code)) = some r)
    (hexp : r.expires_at = some t) (ht : t < now) :
    resolve_short_code code now info s = .ok (none, s) :=
  resolve_expired s code now info r t hup hmiss hfind hexp ht

theorem claim_C5_expired_resolve_witness :
    sExp.cache.up = true ∧
    cache_lookup sExp.cache (("0000001").toList) = none ∧
    sExp.db.urls.find? (fun x => decide (x.short_code = ("0000001").toList)) = some recExp ∧
    recExp.expires_at = some 5 ∧ 5 < 9 ∧
    resolve_short_code (("0000001").toList) 9 ⟨none, none⟩ sExp = .ok (none, sExp) :=
  ⟨rfl, rfl, by decide, rfl, by norm_num,
    claim_C5_expired_resolve sExp (("0000001").toList) 9 ⟨none, none⟩ recExp 5
      rfl rfl (by decide) rfl (by norm_num)⟩

/-- Claim C8: creating with a long URL that already has a record returns the
existing record unchanged — the whole database state (records, ids,
auto-increment counter, clicks) is untouched — and refreshes the cache entry
for its code. -/
theorem claim_C8_dedup (s : AppState) (lu : String) (ea : Option Nat) (r : URLRecord)
    (hup : s.cache.up = true)
    (hfind : s.db.urls.find? (fun x => decide (x.long_url = lu)) = some r) :
    ∃ s', create_short_url lu ea s = .ok (r, s') ∧
      s'.db = s.db ∧
      cache_lookup s'.cache r.short_code = some r.long_url := by
  have hc : create_short_url lu ea s = .ok (r,
      { s with cache :=
          { entries := (cache_key r.short_code, r.long_url) ::
              s.cache.entries.filter (fun p => !decide (p.1 = cache_key r.short_code)),
            up := s.cache.up } }) := by
    unfold create_short_url
    rw [hfind]
    dsimp only
    rw [cache_set_ok s.cache r.short_code r.long_url hup]
  exact ⟨_, hc, rfl, cache_lookup_cons_self _ _ _ _⟩

theorem claim_C8_dedup_witness :
    (sUp rec1).cache.up = true ∧
    (sUp rec1).db.urls.find?
      (fun x => decide (x.long_url = "https://example.com/a")) = some rec1 ∧
    (∃ s', create_short_url ("https://example.com/a") (some 99) (sUp rec1) = .ok (rec1, s') ∧
      s'.db = (sUp rec1).db ∧
      cache_lookup s'.cache rec1.short_code = some rec1.long_url) :=
  ⟨rfl, by decide,
    claim_C8_dedup (sUp rec1) ("https://example.com/a") (some 99) rec1 rfl (by decide)⟩

/-- Claim C6: for a code missing from the (reachable) cache whose record is
present and not expired, resolve returns the record's long URL, backfills
the cache with it, appends exactly one click event built from the request
metadata, and increments that record's click counter by one (no new id is
allocated). -/
theorem claim_C6_store_fallback (s : AppState) (code : List Char) (now : Nat)
    (info : RequestInfo) (r : URLRecord)
    (hup : s.cache.up = true) (hmiss : cache_lookup s.cache code = none)
    (hfind : s.db.urls.find? (fun x => decide (x.short_code = code)) = some r)
    (hexp : ∀ t, r.expires_at = some t → ¬ t < now) :
    ∃ s', resolve_short_code code now info s = .ok (some r.long_url, s') ∧
      cache_lookup s'.cache code = some r.long_url ∧
      s'.db.clicks = s.db.clicks ++ [log_click code info] ∧
      s'.db.urls.find? (fun x => decide (x.short_code = code)) =
        some { r with click_count := r.click_count + 1 } ∧
      s'.db.next_id = s.db.next_id := by
  refine ⟨_, resolve_serve s code now info r hup hmiss hfind hexp,
    cache_lookup_cons_self _ _ _ _, rfl, ?_, rfl⟩
  rw [List.find?_map]
  have hcomp : ((fun x : URLRecord => decide (x.short_code = code)) ∘
      (fun x => if x.short_code = code
                then { x with click_count := x.click_count + 1 } else x))
      = fun x => decide (x.short_code = code) := by
    funext x
    simp only [Function.comp_apply, bump_short_code]
  rw [hcomp, hfind]
  have hr : r.short_code = code := by simpa using List.find?_some hfind
  show some (if r.short_code = code
    then { r with click_count := r.click_count + 1 } else r) = _
  rw [if_pos hr]

theorem claim_C6_store_fallback_witness :
    (sUp rec1).cache.up = true ∧
    cache_lookup (sUp rec1).cache (("0000001").toList) = none ∧
    (sUp rec1).db.urls.find?
      (fun x => decide (x.short_code = ("0000001").toList)) = some rec1 ∧
    (∃ s', resolve_short_code (("0000001").toList) 100 ⟨some ("agent"), none⟩ (sUp rec1)
        = .ok (some rec1.long_url, s') ∧
      cache_lookup s'.cache (("0000001").toList) = some rec1.long_url ∧
      s'.db.clicks = (sUp rec1).db.clicks ++
        [log_click (("0000001").toList) ⟨some ("agent"), none⟩] ∧
      s'.db.urls.find? (fun x => decide (x.short_code = ("0000001").toList)) =
        some { rec1 with click_count := rec1.click_count + 1 } ∧
      s'.db.next_id = (sUp rec1).db.next_id) :=
  ⟨rfl, rfl, by decide,
    claim_C6_store_fallback (sUp rec1) (("0000001").toList) 100 ⟨some ("agent"), none⟩ rec1
      rfl rfl (by decide) (by intro t ht; simp [rec1] at ht)⟩

/-- Claim C7 (divergence evidence): on a cache hit (a cached non-empty
value, reachable cache) resolve returns the cached long URL with the
committed state unchanged.  As the claim says, there is no store lookup and
no expiration re-check (the result does not depend on `s.db.urls` or on
`now` at all); but contrary to the claim, NO click event is durably logged:
`_log_click` only stages the row, the cache-hit path never calls
`db.commit()`, no caller commits, and `get_db` closes the session at the end
of the request, rolling the insert back — `s'.db.clicks = s.db.clicks`. -/
theorem claim_C7_cache_hit (s : AppState) (code : List Char) (now : Nat)
    (info : RequestInfo) (u : String)
    (hup : s.cache.up = true)
    (hhit : cache_lookup s.cache code = some u) (hne : u ≠ "") :
    resolve_short_code code now info s = .ok (some u, s) :=
  resolve_hit s code now info u hup hhit hne

theorem claim_C7_cache_hit_witness :
    sHit.cache.up = true ∧
    cache_lookup sHit.cache (("0000001").toList) = some ("https://example.com/a") ∧
    ("https://example.com/a" : String) ≠ "" ∧
    resolve_short_code (("0000001").toList) 100 ⟨none, none⟩ sHit
      = .ok (some ("https://example.com/a"), sHit) :=
  ⟨rfl, by decide, by decide,
    claim_C7_cache_hit sHit (("0000001").toList) 100 ⟨none, none⟩
      ("https://example.com/a") rfl (by decide) (by decide)⟩

/-- Claim C9: with a reachable cache and no duplicate short codes in the
store, deleting an existing short code succeeds, removes the durable record
and the cache entry, touches no click history, and every subsequent
resolution of that code returns not-found; deleting an unknown short code
reports not-found and changes neither the store nor the cache. -/
theorem claim_C9_delete (s : AppState) (code : List Char)
    (hup : s.cache.up = true)
    (hnodup : (s.db.urls.map (fun x => x.short_code)).Nodup) :
    (∀ r, s.db.urls.find? (fun x => decide (x.short_code = code)) = some r →
       ∃ s', delete_short_url code s = .ok (true, s') ∧
         (∀ x ∈ s'.db.urls, x.short_code ≠ code) ∧
         cache_lookup s'.cache code = none ∧
         s'.db.clicks = s.db.clicks ∧
         (∀ now info, resolve_short_code code now info s' = .ok (none, s'))) ∧
    (s.db.urls.find? (fun x => decide (x.short_code = code)) = none →
       delete_short_url code s = .ok (false, s)) := by
  constructor
  · intro r hfind
    have hdel : delete_short_url code s = .ok (true,
        { db := { urls := s.db.urls.erase r, clicks := s.db.clicks,
                  next_id := s.db.next_id },
          cache := { entries := s.cache.entries.filter
                       (fun p => !decide (p.1 = cache_key code)),
                     up := s.cache.up } }) := by
      unfold delete_short_url
      rw [hfind]
      dsimp only
      unfold cache_delete
      rw [hup]
      rfl
    have hrcode : r.short_code = code := by simpa using List.find?_some hfind
    have hnodupl : s.db.urls.Nodup := List.Nodup.of_map _ hnodup
    have hnomem : ∀ x ∈ s.db.urls.erase r, x.short_code ≠ code := by
      intro x hx hceq
      have hxl : x ∈ s.db.urls := List.mem_of_mem_erase hx
      have hrl : r ∈ s.db.urls := List.mem_of_find?_eq_some hfind
      have hxr : x = r :=
        List.inj_on_of_nodup_map hnodup hxl hrl (by rw [hceq, hrcode])
      subst hxr
      exact ((List.Nodup.mem_erase_iff hnodupl).mp hx).1 rfl
    refine ⟨_, hdel, hnomem, cache_lookup_filter_not _ _ _, rfl, ?_⟩
    intro now info
    refine resolve_absent _ code now info hup (cache_lookup_filter_not _ _ _) ?_
    rw [List.find?_eq_none]
    intro x hx
    simpa using hnomem x hx
  · intro hfind
    unfold delete_short_url
    rw [hfind]

theorem claim_C9_delete_witness :
    (sUp rec1).cache.up = true ∧
    ((sUp rec1).db.urls.map (fun x => x.short_code)).Nodup ∧
    delete_short_url (("zzzzzzz").toList) (sUp rec1) = .ok (false, sUp rec1) :=
  ⟨rfl, by decide,
    (claim_C9_delete (sUp rec1) (("zzzzzzz").toList) rfl (by decide)).2 (by decide)⟩

/-- Claim C10 is false as stated: at `now = 100` the record `recExp`
(expiring at 5) is strictly expired, and cache-miss resolution indeed
reports not-found — yet Stats does not: `get_url_stats` performs no
expiration check and returns the record's data, so expiration is visibly
different from absence through the Stats read operation. -/
theorem claim_C10_counterexample :
    recExp.expires_at = some 5 ∧ 5 < 100 ∧
    resolve_short_code (("0000001").toList) 100 ⟨none, none⟩ sExp = .ok (none, sExp) ∧
    get_url_stats (("0000001").toList) sExp = some recExp ∧
    get_url_stats (("0000001").toList) sExp ≠ none := by
  refine ⟨rfl, by norm_num, rfl, by decide, by decide⟩

/-- Claim C10 (amended): through Resolve (on a cache miss, with a reachable
cache) an expired record is indistinguishable from an absent one — both
return not-found with the state unchanged.  Stats, however, never checks
expiration: it returns the record whenever one with the code exists (expired
or not) and reports not-found only when none exists. -/
theorem claim_C10_amended (s : AppState) (code : List Char) (now : Nat)
    (info : RequestInfo)
    (hup : s.cache.up = true) (hmiss : cache_lookup s.cache code = none) :
    (∀ r t, s.db.urls.find? (fun x => decide (x.short_code = code)) = some r →
       r.expires_at = some t → t < now →
       resolve_short_code code now info s = .ok (none, s) ∧
       get_url_stats code s = some r) ∧
    (s.db.urls.find? (fun x => decide (x.short_code = code)) = none →
       resolve_short_code code now info s = .ok (none, s) ∧
       get_url_stats code s = none) := by
  constructor
  · intro r t hfind hexp ht
    exact ⟨resolve_expired s code now info r t hup hmiss hfind hexp ht, hfind⟩
  · intro hfind
    exact ⟨resolve_absent s code now info hup hmiss hfind, hfind⟩

theorem claim_C10_amended_witness :
    sExp.cache.up = true ∧
    cache_lookup sExp.cache (("0000001").toList) = none ∧
    (resolve_short_code (("0000001").toList) 100 ⟨none, none⟩ sExp = .ok (none, sExp) ∧
     get_url_stats (("0000001").toList) sExp = some recExp) :=
  ⟨rfl, rfl,
    (claim_C10_amended sExp (("0000001").toList) 100 ⟨none, none⟩ rfl rfl).1
      recExp 5 (by decide) rfl (by norm_num)⟩
